import Mathlib

/-!
Shallow embedding of the dotctl dotfiles manager (src/main.go) and proofs
about its package-eligibility, deployment-resolution, template-expansion,
configuration-loading, git-sync, adoption and package-scanning logic.

Paths are modelled as lists of path components (the result of splitting an
absolute path at the separator); file contents are modelled as lists of
characters; the dynamic `interface{}` values that Go's JSON/YAML
deserializers produce are modelled by the inductive type `JValue`.
-/

namespace Dotctl

/-- Model of a dynamically typed JSON/YAML value as Go's `encoding/json`
and `yaml.v3` produce it into an `interface{}`. -/
inductive JValue where
  | jstr (s : String)
  | jbool (b : Bool)
  | jnum (n : Int)
  | jarr (xs : List JValue)
  | jobj (fields : List (String × JValue))
  | jnull

/-- Lookup of a key in a Go map modelled as an association list
(first binding wins; Go maps have unique keys). -/
def jlookup (key : String) : List (String × JValue) → Option JValue
  | [] => none
  | (k, v) :: rest => if k = key then some v else jlookup key rest

/-- Embedding of `shouldDeployPackage` (src/main.go lines 1275-1301): a bare
string entry is eligible when it equals "all" or the current system; a map
entry with no "systems" key defaults to eligible; a map entry whose
"systems" value is a list is eligible when some string element equals "all"
or the current system; any other shape is not eligible. -/
def shouldDeployPackage (packageConfig : JValue) (system : String) : Bool :=
  match packageConfig with
  | .jstr config => config == "all" || config == system
  | .jobj config =>
    match jlookup "systems" config with
    | none => true
    | some systemsInterface =>
      match systemsInterface with
      | .jarr systemsSlice =>
        systemsSlice.any (fun sys =>
          match sys with
          | .jstr sysStr => sysStr == "all" || sysStr == system
          | _ => false)
      | _ => false
  | _ => false

/-- Embedding of Go `strings.HasPrefix`, computed on the underlying
character list so that concrete instances reduce in the kernel. -/
def hasPrefixGo (s pre : String) : Bool := pre.data.isPrefixOf s.data

/-- Embedding of Go `strings.HasSuffix`. -/
def hasSuffixGo (s suf : String) : Bool := suf.data.isSuffixOf s.data

/-- Embedding of Go `strings.TrimSuffix`: removes the suffix when present,
otherwise returns the string unchanged. -/
def trimSuffixGo (s suf : String) : String :=
  if hasSuffixGo s suf then ⟨s.data.take (s.data.length - suf.data.length)⟩ else s

/-- Embedding of the `PackageConfig` struct (src/main.go lines 1005-1009). -/
structure PackageConfig where
  systems : List String
  description : String
  home : Bool

/-- Embedding of `getPackageConfig` (src/main.go lines 1303-1345): a package
entry stored as a bare string becomes a config whose systems list is that
single tag; a map entry yields the string elements of its "systems" list,
its "description" string and its "home" bool (each defaulted when absent or
of the wrong dynamic type); an unregistered package or other shape gives
`none`. -/
def getPackageConfig (packages : List (String × JValue)) (packageName : String) :
    Option PackageConfig :=
  match jlookup packageName packages with
  | none => none
  | some (.jstr config) => some { systems := [config], description := "", home := false }
  | some (.jobj config) =>
    let systems : List String :=
      match jlookup "systems" config with
      | some (.jarr l) =>
        l.filterMap (fun v => match v with | .jstr s => some s | _ => none)
      | _ => []
    let description : String :=
      match jlookup "description" config with
      | some (.jstr d) => d
      | _ => ""
    let home : Bool :=
      match jlookup "home" config with
      | some (.jbool b) => b
      | _ => false
    some { systems := systems, description := description, home := home }
  | some _ => none

/-- Embedding of `isConfigPackage` (src/main.go lines 2366-2376): packages
whose name starts with "." and the reserved "shell" package go to the home
directory; everything else goes under `~/.config`. -/
def isConfigPackage (packageName : String) : Bool :=
  if hasPrefixGo packageName "." || packageName == "shell" then false else true

/-- The Go condition `packageConfig != nil && packageConfig.Home` used by
`deployPackage` and `undeployPackage`. -/
def hasHomeFlag (packages : List (String × JValue)) (packageName : String) : Bool :=
  match getPackageConfig packages packageName with
  | some pc => pc.home
  | none => false

/-- Length of the longest common prefix of two component lists (the shared
leading path elements that Go `filepath.Rel` cancels). -/
def commonPrefixLen : List String → List String → Nat
  | a :: as, b :: bs => if a = b then commonPrefixLen as bs + 1 else 0
  | _, _ => 0

/-- Embedding of Go `filepath.Rel(basepath, targpath)` on clean absolute
paths given as component lists: drop the common leading components, go up
with ".." once per remaining base component, then down into the remaining
target components. -/
def relPath (basepath targpath : List String) : List String :=
  List.replicate (basepath.length - commonPrefixLen basepath targpath) ".."
    ++ targpath.drop (commonPrefixLen basepath targpath)

/-- Resolution of a relative component list against a directory, as the
filesystem resolves a relative symlink target: ".." pops the last
component, any other component descends. -/
def resolveRel (dir : List String) : List String → List String
  | [] => dir
  | x :: rest =>
    if x = ".." then resolveRel dir.dropLast rest else resolveRel (dir ++ [x]) rest

/-- The action `deployPackage` (src/main.go lines 1401-1478) resolves to:
failure when the package source directory is missing, per-file deployment
into the home directory for the reserved "shell" package, or the creation
of one symlink at `symlinkPath` whose stored target is `linkTarget`. -/
inductive DeployPlan where
  | notFound
  | shellFiles (homeDir : List String)
  | link (symlinkPath : List String) (linkTarget : List String)

/-- Embedding of the destination resolution of `deployPackage`
(src/main.go lines 1401-1478). `homeDir` and `dotfilesDir` are clean
absolute paths as component lists, `srcExists` models the existence check
on the package source directory, and the created symlink stores the
`filepath.Rel`-computed relative target. -/
def deployPackageResolve (packages : List (String × JValue)) (packageName : String)
    (homeDir dotfilesDir : List String) (srcExists : Bool) : DeployPlan :=
  let packageDir := dotfilesDir ++ [packageName]
  if !srcExists then .notFound
  else if hasHomeFlag packages packageName then
    .link (homeDir ++ [packageName]) (relPath homeDir packageDir)
  else if isConfigPackage packageName then
    .link (homeDir ++ [".config", packageName])
      (relPath (homeDir ++ [".config"]) packageDir)
  else if packageName == "shell" then .shellFiles homeDir
  else .link (homeDir ++ [packageName]) (relPath homeDir packageDir)

/-- The action `undeployPackage` (src/main.go lines 1480-1527) resolves to:
per-file removal in the home directory for the reserved "shell" package, or
removal of the single symlink at the stored path. -/
inductive UndeployPlan where
  | shellFiles (homeDir : List String)
  | remove (symlinkPath : List String)

/-- Embedding of the destination resolution of `undeployPackage`
(src/main.go lines 1480-1527), mirroring the branch structure of
`deployPackageResolve`. -/
def undeployPackageResolve (packages : List (String × JValue)) (packageName : String)
    (homeDir : List String) : UndeployPlan :=
  if hasHomeFlag packages packageName then .remove (homeDir ++ [packageName])
  else if isConfigPackage packageName then
    .remove (homeDir ++ [".config", packageName])
  else if packageName == "shell" then .shellFiles homeDir
  else .remove (homeDir ++ [packageName])

/-- Destinations (as file names relative to the home directory) that
`deployShellPackage` (src/main.go lines 2378-2450) creates from the direct
entries of the shell package directory: subdirectories are skipped,
".template" files are expanded to the suffix-stripped name, and every other
file becomes a same-named symlink. -/
def deployShellTargets : List (String × Bool) → List String
  | [] => []
  | (name, isDir) :: rest =>
    if isDir then deployShellTargets rest
    else if hasSuffixGo name ".template" then
      trimSuffixGo name ".template" :: deployShellTargets rest
    else name :: deployShellTargets rest

/-- Destinations (as file names relative to the home directory) that
`undeployShellPackage` (src/main.go lines 2452-2481) removes: one per
directory entry, using the entry name verbatim (no directory skipping and
no ".template" suffix stripping). -/
def undeployShellTargets : List (String × Bool) → List String
  | [] => []
  | (name, _) :: rest => name :: undeployShellTargets rest

/-- Embedding of Go `strings.TrimSpace` from the left: drop leading
whitespace characters. -/
def trimLeftChars (l : List Char) : List Char := l.dropWhile (fun c => c.isWhitespace)

/-- Drop trailing whitespace characters. -/
def trimRightChars (l : List Char) : List Char :=
  (l.reverse.dropWhile (fun c => c.isWhitespace)).reverse

/-- Embedding of Go `strings.TrimSpace` on a character list (the relevant
whitespace characters being space, tab, carriage return and newline). -/
def trimSpaceGo (l : List Char) : List Char := trimRightChars (trimLeftChars l)

/-- One step of splitting at newlines: prepend a character to the first
line of an already-split tail, or start a new empty line at a newline. -/
def consLine (c : Char) : List (List Char) → List (List Char)
  | [] => [[c]]
  | l :: ls => if c = '\n' then [] :: l :: ls else (c :: l) :: ls

/-- Embedding of Go `strings.Split(content, "\n")` on a character list. -/
def splitLines : List Char → List (List Char)
  | [] => [[]]
  | c :: rest => consLine c (splitLines rest)

/-- Embedding of Go `strings.Join(lines, "\n")` on character lists. -/
def joinLines : List (List Char) → List Char
  | [] => []
  | [l] => l
  | l :: l2 :: ls => l ++ '\n' :: joinLines (l2 :: ls)

/-- The fixed leading text of a template block-open marker. -/
def openMarkerHead : List Char := "\x7b\x7b#if ".data

/-- The fixed trailing text of a template block-open marker. -/
def closeMarkerTail : List Char := "\x7d\x7d".data

/-- The template block-close marker line. -/
def closeMarkerLine : List Char := "\x7b\x7b/if\x7d\x7d".data

/-- The open-marker test of `processTemplateContent` (src/main.go lines
1915-1923): the trimmed line starts with the block-open head and ends with
the marker tail. -/
def isOpenLine (line : List Char) : Bool :=
  openMarkerHead.isPrefixOf (trimSpaceGo line)
    && closeMarkerTail.isSuffixOf (trimSpaceGo line)

/-- The close-marker test of `processTemplateContent` (src/main.go lines
1926-1929): the trimmed line equals the block-close marker. -/
def isCloseLine (line : List Char) : Bool := trimSpaceGo line == closeMarkerLine

/-- Extraction of the condition token from an open-marker line: the trimmed
slice between the marker head (6 characters) and the marker tail (2
characters), trimmed again. -/
def condOf (line : List Char) : List Char :=
  trimSpaceGo (((trimSpaceGo line).drop 6).take ((trimSpaceGo line).length - 8))

/-- Embedding of `matchesCondition` (src/main.go lines 1940-1957): exact
tag equality, except that the condition "linux" also matches the four named
distributions. -/
def matchesCondition (sys cond : List Char) : Bool :=
  if cond = "macos".data then sys == "macos".data
  else if cond = "linux".data then
    sys == "arch".data || sys == "ubuntu".data || sys == "debian".data
      || sys == "fedora".data || sys == "linux".data
  else if cond = "arch".data then sys == "arch".data
  else if cond = "ubuntu".data then sys == "ubuntu".data
  else if cond = "debian".data then sys == "debian".data
  else if cond = "fedora".data then sys == "fedora".data
  else sys == cond

/-- The per-line loop of `processTemplateContent` (src/main.go lines
1907-1938), with the `skipBlock` state threaded explicitly. -/
def processLines (sys : List Char) : Bool → List (List Char) → List (List Char)
  | _, [] => []
  | skipBlock, line :: rest =>
    if isOpenLine line then
      processLines sys (!matchesCondition sys (condOf line)) rest
    else if isCloseLine line then
      processLines sys false rest
    else if skipBlock then
      processLines sys skipBlock rest
    else
      line :: processLines sys skipBlock rest

/-- Embedding of `processTemplateContent` (src/main.go lines 1907-1938):
split the content at newlines, run the conditional-block loop with the skip
state initially off, and join the kept lines back with newlines. -/
def processTemplateContent (sys content : List Char) : List Char :=
  joinLines (processLines sys false (splitLines content))

/-- A canonical block-open marker line carrying the given condition. -/
def mkOpenLine (cond : List Char) : List Char :=
  openMarkerHead ++ cond ++ closeMarkerTail

/-- Content with no block-marker lines at all. -/
def noBlockMarkers (content : List Char) : Bool :=
  (splitLines content).all (fun l => !(isOpenLine l || isCloseLine l))

/-- Lexicographic (byte-wise) string comparison, the order `sort.Strings`
sorts by, computed on the underlying character lists. -/
def charListLe : List Char → List Char → Bool
  | [], _ => true
  | _ :: _, [] => false
  | a :: as, b :: bs => if a = b then charListLe as bs else decide (a < b)

/-- Lexicographic order on strings (the comparison used by Go
`sort.Strings`). -/
def strLeGo (a b : String) : Bool := charListLe a.data b.data

/-- Insertion into a lexicographically sorted list of strings. -/
def insertSorted (x : String) : List String → List String
  | [] => [x]
  | y :: ys => if strLeGo x y then x :: y :: ys else y :: insertSorted x ys

/-- Embedding of Go `sort.Strings`: insertion sort by lexicographic
order. -/
def sortStrings : List String → List String
  | [] => []
  | x :: xs => insertSorted x (sortStrings xs)

/-- The fixed skip-list test of `scanPackages` (src/main.go line 1362):
the version-control metadata directory, the configuration file, the cache
directory, and temp-suffixed names. -/
def skipScanEntry (name : String) : Bool :=
  name == ".git" || name == "dotctl.json" || name == "__pycache__"
    || hasSuffixGo name ".tmp"

/-- The collection loop of `scanPackages` (src/main.go lines 1359-1370)
over the directory entries (name, isDir): skip-listed names are dropped,
directories are kept, non-directories are ignored. -/
def scanCollect : List (String × Bool) → List String
  | [] => []
  | (name, isDir) :: rest =>
    if skipScanEntry name then scanCollect rest
    else if isDir then name :: scanCollect rest
    else scanCollect rest

/-- Embedding of `scanPackages` (src/main.go lines 1347-1374): a
non-existent dotfiles root yields the empty list, otherwise the kept
directory names sorted lexicographically. (The error path of a present but
unreadable root directory is not modelled.) -/
def scanPackages (rootExists : Bool) (entries : List (String × Bool)) : List String :=
  if !rootExists then [] else sortStrings (scanCollect entries)

/-- Embedding of the `GitHubConfig` struct (src/main.go lines 1011-1014). -/
structure GitHubCfg where
  repository : String
  branch : String

/-- Embedding of the `Config` struct (src/main.go lines 1016-1021), with
`Option` capturing Go nil-ness of the map, the slices and the pointer. -/
structure GoConfig where
  packages : Option (List (String × JValue))
  globalExcludes : Option (List String)
  stowOptions : Option (List String)
  github : Option GitHubCfg

/-- The fixed default exclusion list of `loadConfig` (src/main.go
line 1125). -/
def defaultExcludesList : List String := [".git", ".DS_Store", "*.pyc", "__pycache__"]

/-- The built-in default configuration document of `loadConfig`
(src/main.go lines 1123-1127): empty package map, fixed exclusion list,
empty stow options, no remote descriptor. -/
def defaultConfigDoc : GoConfig :=
  { packages := some [], globalExcludes := some defaultExcludesList,
    stowOptions := some [], github := none }

/-- Embedding of `updateStowTargetOption` (src/main.go lines 2490-2510):
replace any existing target option with the current home directory, or
append one when none is present. -/
def updateStowTargetOption (stowOptions : List String) (homeDir : String) : List String :=
  let updated := stowOptions.map (fun o =>
    if hasPrefixGo o "--target=" then "--target=" ++ homeDir else o)
  if stowOptions.any (fun o => hasPrefixGo o "--target=") then updated
  else updated ++ ["--target=" ++ homeDir]

/-- The merge-with-defaults step of `loadConfig` (src/main.go lines
1169-1181): each nil subfield is replaced by the corresponding default,
and the stow options get the current home-directory target. -/
def mergeWithDefaults (homeDir : String) (c : GoConfig) : GoConfig :=
  { packages := some (c.packages.getD []),
    globalExcludes := some (c.globalExcludes.getD defaultExcludesList),
    stowOptions := some (updateStowTargetOption (c.stowOptions.getD []) homeDir),
    github := c.github }

/-- The on-disk states of the configuration file that `loadConfig`
(src/main.go lines 1117-1184) distinguishes: absent, present but
unreadable, present but failing to parse, or successfully parsed (as YAML,
or as legacy JSON). -/
inductive ConfigFileState where
  | absent
  | unreadable
  | yamlParseError
  | jsonParseError
  | yamlParsed (c : GoConfig)
  | jsonParsed (c : GoConfig)

/-- Observable side effects of `loadConfig`. -/
inductive LoadEffect where
  | logReadWarning
  | logParseError
  | writeYamlConfig
  | removeJsonFile

/-- Embedding of `loadConfig` (src/main.go lines 1117-1184): an absent file
returns the built-in default with no side effect; an unreadable or
unparsable file logs a warning or the parse error and returns the default;
a parsed YAML document is merged with the defaults; a parsed legacy JSON
document is migrated (written back as YAML and the JSON file removed) and
re-loaded, which merges the same document (the model assumes the migration
write succeeds). -/
def loadConfig (homeDir : String) : ConfigFileState → GoConfig × List LoadEffect
  | .absent => (defaultConfigDoc, [])
  | .unreadable => (defaultConfigDoc, [.logReadWarning])
  | .yamlParseError => (defaultConfigDoc, [.logParseError])
  | .jsonParseError => (defaultConfigDoc, [.logParseError])
  | .yamlParsed c => (mergeWithDefaults homeDir c, [])
  | .jsonParsed c => (mergeWithDefaults homeDir c, [.writeYamlConfig, .removeJsonFile])

/-- Environment for one run of `syncToGitHub` (src/main.go lines
2074-2213): the preconditions it checks, the outcomes of the git
subprocesses it may run, and the repository state those subprocesses
observe. `stagedAfterAdd` is the outcome of the staged-diff probe after
the run of the add command. -/
structure GitEnv where
  repoConfigured : Bool
  ghAvailable : Bool
  ghAuthenticated : Bool
  gitDirExists : Bool
  initOk : Bool
  remoteAddOk : Bool
  fetchOk : Bool
  stagedChanges : Bool
  unstagedChanges : Bool
  untrackedFiles : Bool
  localHash : String
  upstreamHash : String
  stashPushOk : Bool
  pullOk : Bool
  stashPopOk : Bool
  mergeConflicts : Bool
  addOk : Bool
  stagedAfterAdd : Bool
  commitOk : Bool
  pushOk : Bool

/-- The state-changing git commands `syncToGitHub` can issue. -/
inductive GitCmd where
  | initRepo
  | remoteAdd
  | fetch
  | stashPush
  | pull
  | stashPop
  | addAll
  | commit
  | push
deriving DecidableEq

/-- Terminal outcome of one `syncToGitHub` run. -/
inductive SyncOutcome where
  | failure
  | conflictHalt
  | nothingToSync
  | synced
  | dryRunReport
deriving DecidableEq

/-- Embedding of `hasLocalChanges` (src/main.go lines 2284-2316): staged
changes, unstaged changes or untracked files each independently make the
tree dirty. -/
def hasLocalChanges (env : GitEnv) : Bool :=
  env.stagedChanges || env.unstagedChanges || env.untrackedFiles

/-- Embedding of `isBehindUpstream` (src/main.go lines 2319-2340): the
local HEAD hash differs from the remote tracking branch hash. -/
def isBehindUpstream (env : GitEnv) : Bool := !(env.localHash == env.upstreamHash)

/-- Embedding of `syncToGitHub` (src/main.go lines 2074-2213) as a
function from the environment to the list of state-changing git commands
issued and the terminal outcome, following the Go early-return structure:
precondition checks, first-run initialization, the dry-run report,
fetch, conditional stash, conditional pull (with best-effort stash pop on
pull failure), stash pop with conflict detection, add, the
nothing-to-sync short circuit, commit, and push. -/
def syncToGitHub (env : GitEnv) (dryRun : Bool) : List GitCmd × SyncOutcome :=
  if !env.repoConfigured then ([], .failure)
  else if !env.ghAvailable then ([], .failure)
  else if !env.ghAuthenticated then ([], .failure)
  else if !env.gitDirExists && !dryRun && !env.initOk then ([.initRepo], .failure)
  else if !env.gitDirExists && !dryRun && !env.remoteAddOk then
    ([.initRepo, .remoteAdd], .failure)
  else
    let initTrace : List GitCmd :=
      if !env.gitDirExists && !dryRun then [.initRepo, .remoteAdd] else []
    if dryRun then (initTrace, .dryRunReport)
    else
      let t1 := initTrace ++ [GitCmd.fetch]
      if !env.fetchOk then (t1, .failure)
      else
        let stashCreated := hasLocalChanges env && isBehindUpstream env
        let t2 := if stashCreated then t1 ++ [GitCmd.stashPush] else t1
        if stashCreated && !env.stashPushOk then (t2, .failure)
        else
          let t3 := if isBehindUpstream env then t2 ++ [GitCmd.pull] else t2
          if isBehindUpstream env && !env.pullOk then
            (if stashCreated then t3 ++ [GitCmd.stashPop] else t3, .failure)
          else
            let t4 := if stashCreated then t3 ++ [GitCmd.stashPop] else t3
            if stashCreated && !env.stashPopOk then
              (t4, if env.mergeConflicts then .conflictHalt else .failure)
            else
              let t5 := t4 ++ [GitCmd.addAll]
              if !env.addOk then (t5, .failure)
              else if !env.stagedAfterAdd then (t5, .nothingToSync)
              else
                let t6 := t5 ++ [GitCmd.commit]
                if !env.commitOk then (t6, .failure)
                else
                  let t7 := t6 ++ [GitCmd.push]
                  if !env.pushOk then (t7, .failure)
                  else (t7, .synced)

/-- Embedding of `isSimpleSystem` (src/main.go lines 2356-2364). -/
def isSimpleSystem (system : String) : Bool :=
  ["all", "linux", "macos", "arch", "ubuntu", "debian", "fedora"].any
    (fun s => s == system)

/-- The filesystem actions `adoptSinglePackage` attempts, in order. -/
inductive AdoptStep where
  | moveToDotfiles
  | symlinkBack
  | moveBack
deriving DecidableEq

/-- Outcomes of the two fallible filesystem calls in
`adoptSinglePackage`. -/
structure AdoptEnv where
  renameOk : Bool
  symlinkOk : Bool

/-- Go map assignment `dm.Config.Packages[packageName] = v` on the
association-list model of the package map. -/
def setPkg (packages : List (String × JValue)) (k : String) (v : JValue) :
    List (String × JValue) :=
  if packages.any (fun p => p.1 == k) then
    packages.map (fun p => if p.1 == k then (k, v) else p)
  else packages ++ [(k, v)]

/-- Embedding of `adoptSinglePackage` (src/main.go lines 1829-1860):
move the directory into the dotfiles root; on success create the symlink
back, and on symlink failure attempt to move the directory back and return
the error; only after a successful symlink is the package registered in
the configuration (a single simple tag as a bare string, otherwise a
structured systems record). Returns the attempted steps, the result, and
the resulting package map. -/
def adoptSinglePackage (env : AdoptEnv) (packageName : String) (systems : List String)
    (packages : List (String × JValue)) :
    List AdoptStep × Except String Unit × List (String × JValue) :=
  if !env.renameOk then ([.moveToDotfiles], .error "failed to move", packages)
  else if !env.symlinkOk then
    ([.moveToDotfiles, .symlinkBack, .moveBack], .error "failed to create symlink",
      packages)
  else
    let newPackages :=
      if systems.length == 1 && isSimpleSystem (systems.headD "") then
        setPkg packages packageName (.jstr (systems.headD ""))
      else
        setPkg packages packageName (.jobj [("systems", .jarr (systems.map .jstr))])
    ([.moveToDotfiles, .symlinkBack], .ok (), newPackages)

end Dotctl

namespace Dotctl

/-- Claim C1: bare-string entries are eligible exactly for "all" or the
exact system tag, and structured entries with a present systems list are
eligible exactly when the list contains "all" or the system tag exactly;
in particular a list containing "linux" does not match system "arch". -/
theorem shouldDeployPackage_eligibility (S e : String)
    (fields : List (String × JValue)) (ss : List String)
    (hsys : jlookup "systems" fields = some (.jarr (ss.map JValue.jstr))) :
    (shouldDeployPackage (.jstr e) S = true ↔ (e = "all" ∨ e = S))
    ∧ (shouldDeployPackage (.jobj fields) S = true ↔ ("all" ∈ ss ∨ S ∈ ss))
    ∧ shouldDeployPackage
        (.jobj [("systems", .jarr [.jstr "linux", .jstr "macos"])]) "arch" = false := by
  refine ⟨?_, ?_, ?_⟩
  · simp [shouldDeployPackage]
  · simp only [shouldDeployPackage, hsys, List.any_eq_true, List.mem_map]
    constructor
    · rintro ⟨x, ⟨a, ha, rfl⟩, hx⟩
      simp only [Bool.or_eq_true, beq_iff_eq] at hx
      rcases hx with rfl | rfl
      · exact Or.inl ha
      · exact Or.inr ha
    · rintro (h | h)
      · exact ⟨JValue.jstr "all", ⟨"all", h, rfl⟩, by simp⟩
      · exact ⟨JValue.jstr S, ⟨S, h, rfl⟩, by simp⟩
  · rfl

/-- Witness for C1 at concrete inputs. -/
theorem shouldDeployPackage_eligibility_witness :
    (shouldDeployPackage (.jstr "all") "arch" = true ↔ ("all" = "all" ∨ "all" = "arch"))
    ∧ (shouldDeployPackage (.jobj [("systems", .jarr [.jstr "linux"])]) "arch" = true
        ↔ ("all" ∈ ["linux"] ∨ "arch" ∈ ["linux"]))
    ∧ shouldDeployPackage
        (.jobj [("systems", .jarr [.jstr "linux", .jstr "macos"])]) "arch" = false :=
  shouldDeployPackage_eligibility "arch" "all" [("systems", .jarr [.jstr "linux"])]
    ["linux"] rfl

/-- Counterexample to claim C5 as stated: a structured entry with a present
but empty systems list is NOT eligible (the eligibility loop finds no
matching element and the function falls through to `false`). -/
theorem shouldDeployPackage_empty_systems_cex :
    ¬ shouldDeployPackage (.jobj [("systems", .jarr [])]) "arch" = true := by
  simp [shouldDeployPackage, jlookup]

/-- Claim C5 amended: a structured entry whose systems list is absent is
eligible for every system tag (open default), but a structured entry with a
present-and-empty systems list is eligible for no system tag. -/
theorem shouldDeployPackage_open_default_amended (S : String)
    (fields : List (String × JValue))
    (habs : jlookup "systems" fields = none) :
    shouldDeployPackage (.jobj fields) S = true
    ∧ shouldDeployPackage (.jobj [("systems", .jarr [])]) S = false := by
  constructor
  · simp [shouldDeployPackage, habs]
  · simp [shouldDeployPackage, jlookup]

/-- Witness for the amended C5 at concrete inputs. -/
theorem shouldDeployPackage_open_default_amended_witness :
    shouldDeployPackage (.jobj [("description", .jstr "x")]) "arch" = true
    ∧ shouldDeployPackage (.jobj [("systems", .jarr [])]) "arch" = false :=
  shouldDeployPackage_open_default_amended "arch" [("description", .jstr "x")] rfl

theorem commonPrefixLen_le_left : ∀ a b : List String, commonPrefixLen a b ≤ a.length := by
  intro a
  induction a with
  | nil => intro b; cases b <;> simp [commonPrefixLen]
  | cons x as ih =>
    intro b
    cases b with
    | nil => simp [commonPrefixLen]
    | cons y bs =>
      by_cases h : x = y
      · simpa [commonPrefixLen, h] using ih bs
      · simp [commonPrefixLen, h]

theorem take_commonPrefixLen : ∀ a b : List String,
    a.take (commonPrefixLen a b) = b.take (commonPrefixLen a b) := by
  intro a
  induction a with
  | nil => intro b; cases b <;> simp [commonPrefixLen]
  | cons x as ih =>
    intro b
    cases b with
    | nil => simp [commonPrefixLen]
    | cons y bs =>
      by_cases h : x = y
      · simp [commonPrefixLen, h, ih bs]
      · simp [commonPrefixLen, h]

theorem resolveRel_replicate : ∀ (k : Nat) (dir l : List String),
    resolveRel dir (List.replicate k ".." ++ l)
      = resolveRel (dir.take (dir.length - k)) l := by
  intro k
  induction k with
  | zero => intro dir l; simp
  | succ k ih =>
    intro dir l
    rw [List.replicate_succ, List.cons_append, resolveRel, if_pos rfl, ih dir.dropLast]
    congr 1
    rw [List.length_dropLast, List.dropLast_eq_take, List.take_take]
    have hle : dir.length - 1 - k ≤ dir.length - 1 := Nat.sub_le _ _
    rw [inf_eq_left.mpr hle]
    congr 1
    omega

theorem resolveRel_no_dotdot : ∀ (l dir : List String), ".." ∉ l →
    resolveRel dir l = dir ++ l := by
  intro l
  induction l with
  | nil => intro dir _; simp [resolveRel]
  | cons x rest ih =>
    intro dir h
    simp only [List.mem_cons, not_or] at h
    rw [resolveRel, if_neg (fun hx => h.1 hx.symm), ih _ h.2, List.append_assoc,
      List.singleton_append]

/-- A `filepath.Rel`-computed symlink target stored at a link inside the
base directory resolves back to the target path, provided the target path
is clean (no ".." components). -/
theorem resolveRel_relPath (base targ : List String) (h : ".." ∉ targ) :
    resolveRel base (relPath base targ) = targ := by
  rw [relPath, resolveRel_replicate]
  rw [Nat.sub_sub_self (commonPrefixLen_le_left base targ)]
  rw [resolveRel_no_dotdot _ _ (fun hx => h (List.mem_of_mem_drop hx))]
  rw [take_commonPrefixLen]
  exact List.take_append_drop _ _

/-- Claim C2: deployment targets the home directory directly (a single
home-level symlink, or per-file deployment for the reserved "shell"
package) exactly when the entry's home flag is set, or the name is exactly
"shell", or the name begins with a dot; every other package is deployed as
a single symlink at `<home>/.config/<name>` whose stored relative target
resolves to the package source directory `<dotfiles>/<name>`. -/
theorem deployPackage_target_classification
    (packages : List (String × JValue)) (packageName : String)
    (homeDir dotfilesDir : List String)
    (hnd : ".." ∉ dotfilesDir) (hpn : packageName ≠ "..") :
    ((∃ tgt, deployPackageResolve packages packageName homeDir dotfilesDir true
        = .link (homeDir ++ [packageName]) tgt)
      ∨ deployPackageResolve packages packageName homeDir dotfilesDir true
        = .shellFiles homeDir
      ↔ hasHomeFlag packages packageName = true ∨ packageName = "shell"
        ∨ hasPrefixGo packageName "." = true)
    ∧ (¬ (hasHomeFlag packages packageName = true ∨ packageName = "shell"
        ∨ hasPrefixGo packageName "." = true) →
      deployPackageResolve packages packageName homeDir dotfilesDir true
        = .link (homeDir ++ [".config", packageName])
            (relPath (homeDir ++ [".config"]) (dotfilesDir ++ [packageName]))
      ∧ resolveRel (homeDir ++ [".config"])
          (relPath (homeDir ++ [".config"]) (dotfilesDir ++ [packageName]))
        = dotfilesDir ++ [packageName]) := by
  have hno : ".." ∉ dotfilesDir ++ [packageName] := by
    simp only [List.mem_append, List.mem_singleton, not_or]
    exact ⟨hnd, fun hx => hpn hx.symm⟩
  constructor
  · by_cases hf : hasHomeFlag packages packageName = true
    · simp [deployPackageResolve, hf]
    · have hf2 : hasHomeFlag packages packageName = false := by simpa using hf
      by_cases hs : packageName = "shell"
      · subst hs
        simp [deployPackageResolve, hf2, isConfigPackage, hasPrefixGo]
      · by_cases hd : hasPrefixGo packageName "." = true
        · simp [deployPackageResolve, hf2, hs, hd, isConfigPackage]
        · simp [deployPackageResolve, hf2, hs, hd, isConfigPackage]
  · intro h
    push_neg at h
    obtain ⟨hf, hs, hd⟩ := h
    refine ⟨?_, resolveRel_relPath _ _ hno⟩
    simp [deployPackageResolve, hf, hs, hd, isConfigPackage]

/-- Witness for C2 at concrete inputs: the unflagged package "nvim". -/
theorem deployPackage_target_classification_witness :
    ((".." : String) ∉ (["home", "u", ".dotfiles"] : List String))
    ∧ (((∃ tgt, deployPackageResolve [] "nvim" ["home", "u"] ["home", "u", ".dotfiles"] true
        = .link (["home", "u"] ++ ["nvim"]) tgt)
      ∨ deployPackageResolve [] "nvim" ["home", "u"] ["home", "u", ".dotfiles"] true
        = .shellFiles ["home", "u"]
      ↔ hasHomeFlag [] "nvim" = true ∨ "nvim" = "shell"
        ∨ hasPrefixGo "nvim" "." = true)
    ∧ (¬ (hasHomeFlag [] "nvim" = true ∨ "nvim" = "shell"
        ∨ hasPrefixGo "nvim" "." = true) →
      deployPackageResolve [] "nvim" ["home", "u"] ["home", "u", ".dotfiles"] true
        = .link (["home", "u"] ++ [".config", "nvim"])
            (relPath (["home", "u"] ++ [".config"]) (["home", "u", ".dotfiles"] ++ ["nvim"]))
      ∧ resolveRel (["home", "u"] ++ [".config"])
          (relPath (["home", "u"] ++ [".config"]) (["home", "u", ".dotfiles"] ++ ["nvim"]))
        = ["home", "u", ".dotfiles"] ++ ["nvim"])) :=
  ⟨by decide, deployPackage_target_classification [] "nvim" ["home", "u"]
    ["home", "u", ".dotfiles"] (by decide) (by decide)⟩

theorem splitLines_ne_nil (x : List Char) : splitLines x ≠ [] := by
  cases x with
  | nil => simp [splitLines]
  | cons c rest =>
    rw [splitLines]
    cases h : splitLines rest with
    | nil => simp [consLine]
    | cons l ls =>
      by_cases hc : c = '\n' <;> simp [consLine, hc]

theorem joinLines_splitLines : ∀ x : List Char, joinLines (splitLines x) = x := by
  intro x
  induction x with
  | nil => rfl
  | cons c rest ih =>
    rw [splitLines]
    rcases h : splitLines rest with _ | ⟨l, ls⟩
    · exact absurd h (splitLines_ne_nil rest)
    · rw [h] at ih
      rw [consLine]
      by_cases hc : c = '\n'
      · subst hc
        rw [if_pos rfl, joinLines]
        simpa using congrArg (fun t => '\n' :: t) ih
      · rw [if_neg hc]
        cases ls with
        | nil => simpa [joinLines] using congrArg (fun t => c :: t) ih
        | cons l2 ls2 =>
          rw [joinLines]
          rw [joinLines] at ih
          simpa using congrArg (fun t => c :: t) ih

theorem splitLines_no_newline : ∀ l : List Char, '\n' ∉ l → splitLines l = [l] := by
  intro l
  induction l with
  | nil => intro _; rfl
  | cons c rest ih =>
    intro h
    simp only [List.mem_cons, not_or] at h
    rw [splitLines, ih h.2, consLine, if_neg (fun hc => h.1 hc.symm)]

theorem splitLines_append_newline : ∀ (l y : List Char), '\n' ∉ l →
    splitLines (l ++ '\n' :: y) = l :: splitLines y := by
  intro l
  induction l with
  | nil =>
    intro y _
    rw [List.nil_append, splitLines]
    rcases h : splitLines y with _ | ⟨m, ms⟩
    · exact absurd h (splitLines_ne_nil y)
    · rw [consLine, if_pos rfl]
  | cons c rest ih =>
    intro y h
    simp only [List.mem_cons, not_or] at h
    rw [List.cons_append, splitLines, ih y h.2, consLine, if_neg (fun hc => h.1 hc.symm)]

theorem splitLines_joinLines : ∀ ls : List (List Char), ls ≠ [] →
    (∀ l ∈ ls, '\n' ∉ l) → splitLines (joinLines ls) = ls := by
  intro ls
  induction ls with
  | nil => intro h _; exact absurd rfl h
  | cons l rest ih =>
    intro _ hnl
    cases rest with
    | nil => rw [joinLines]; exact splitLines_no_newline l (hnl l (by simp))
    | cons l2 ls2 =>
      rw [joinLines, splitLines_append_newline l _ (hnl l (by simp))]
      rw [ih (by simp) (fun m hm => hnl m (List.mem_cons_of_mem _ hm))]

theorem trimLeftChars_cons_of {c : Char} (hc : c.isWhitespace = false) (l : List Char) :
    trimLeftChars (c :: l) = c :: l := by
  simp [trimLeftChars, List.dropWhile_cons, hc]

theorem trimRightChars_append_of (l : List Char) {c : Char} (hc : c.isWhitespace = false) :
    trimRightChars (l ++ [c]) = l ++ [c] := by
  simp [trimRightChars, List.dropWhile_cons, hc]

theorem trimSpaceGo_mkOpenLine (cond : List Char) :
    trimSpaceGo (mkOpenLine cond) = mkOpenLine cond := by
  have h1 : mkOpenLine cond = '\x7b' :: ("\x7b#if ".data ++ cond ++ closeMarkerTail) := by
    simp [mkOpenLine, openMarkerHead]
  have h2 : '\x7b' :: ("\x7b#if ".data ++ cond ++ closeMarkerTail)
      = ('\x7b' :: ("\x7b#if ".data ++ cond ++ ['\x7d'])) ++ ['\x7d'] := by
    simp [closeMarkerTail]
  rw [trimSpaceGo, h1, trimLeftChars_cons_of (by decide), h2,
    trimRightChars_append_of _ (by decide)]

theorem isOpenLine_mkOpenLine (cond : List Char) : isOpenLine (mkOpenLine cond) = true := by
  rw [isOpenLine, trimSpaceGo_mkOpenLine]
  have hp : openMarkerHead.isPrefixOf (mkOpenLine cond) = true := by
    rw [List.isPrefixOf_iff_prefix, mkOpenLine, List.append_assoc]
    exact List.prefix_append _ _
  have hs : closeMarkerTail.isSuffixOf (mkOpenLine cond) = true := by
    rw [List.isSuffixOf_iff_suffix, mkOpenLine]
    exact List.suffix_append _ _
  rw [hp, hs]
  rfl

theorem condOf_mkOpenLine (cond : List Char) (hc : trimSpaceGo cond = cond) :
    condOf (mkOpenLine cond) = cond := by
  rw [condOf, trimSpaceGo_mkOpenLine]
  have hlen : (mkOpenLine cond).length = cond.length + 8 := by
    simp [mkOpenLine, openMarkerHead, closeMarkerTail]
  have hdrop : (mkOpenLine cond).drop 6 = cond ++ closeMarkerTail := by
    have hsplit : mkOpenLine cond = openMarkerHead ++ (cond ++ closeMarkerTail) := by
      rw [mkOpenLine, List.append_assoc]
    rw [hsplit]
    have h6 : openMarkerHead.length = 6 := rfl
    rw [← h6, List.drop_left]
  rw [hlen, hdrop]
  have h8 : cond.length + 8 - 8 = cond.length := by omega
  rw [h8]
  have htake : (cond ++ closeMarkerTail).take cond.length = cond := List.take_left _ _
  rw [htake, hc]

theorem isOpenLine_closeMarkerLine : isOpenLine closeMarkerLine = false := by decide

theorem isCloseLine_closeMarkerLine : isCloseLine closeMarkerLine = true := by decide

theorem processLines_nomarker (sys : List Char) : ∀ (A : List (List Char)) (skip : Bool)
    (B : List (List Char)),
    (∀ l ∈ A, isOpenLine l = false ∧ isCloseLine l = false) →
    processLines sys skip (A ++ B)
      = (if skip then [] else A) ++ processLines sys skip B := by
  intro A
  induction A with
  | nil => intro skip B _; simp
  | cons a A ih =>
    intro skip B h
    have ha := h a (by simp)
    have hA : ∀ l ∈ A, isOpenLine l = false ∧ isCloseLine l = false :=
      fun l hl => h l (List.mem_cons_of_mem _ hl)
    rw [List.cons_append, processLines]
    rw [ha.1, ha.2]
    cases skip with
    | false =>
      simp only [Bool.false_eq_true, if_false, ih false B hA]
      simp
    | true => simp only [if_pos rfl, Bool.false_eq_true, if_false, ih true B hA]; simp

theorem matchCaseAux {P : Prop} {sys cond X : List Char} (hX : cond = X)
    (hne : ¬ cond = "linux".data) :
    ((sys == X) = true ↔ (sys = cond ∨ (cond = "linux".data ∧ P))) := by
  subst hX
  simp only [beq_iff_eq]
  constructor
  · exact Or.inl
  · rintro (h | ⟨hl, _⟩)
    · exact h
    · exact absurd hl hne

/-- Characterization of `matchesCondition`: exact tag equality, except that
condition "linux" also matches the four named distributions. -/
theorem matchesCondition_iff (sys cond : List Char) :
    matchesCondition sys cond = true
      ↔ (sys = cond ∨ (cond = "linux".data ∧ (sys = "arch".data ∨ sys = "ubuntu".data
          ∨ sys = "debian".data ∨ sys = "fedora".data))) := by
  rw [matchesCondition]
  split_ifs with h1 h2 h3 h4 h5 h6
  · exact matchCaseAux h1 (by subst h1; decide)
  · subst h2
    simp only [Bool.or_eq_true, beq_iff_eq]
    tauto
  · exact matchCaseAux h3 h2
  · exact matchCaseAux h4 h2
  · exact matchCaseAux h5 h2
  · exact matchCaseAux h6 h2
  · exact matchCaseAux rfl h2

/-- Claim C9: template expansion is the identity on content that contains
no block-marker lines. -/
theorem processTemplateContent_no_markers_id (sys content : List Char)
    (h : noBlockMarkers content = true) :
    processTemplateContent sys content = content := by
  rw [processTemplateContent]
  have hall : ∀ l ∈ splitLines content, isOpenLine l = false ∧ isCloseLine l = false := by
    intro l hl
    have hx := (List.all_eq_true.mp h) l hl
    simp only [Bool.not_eq_eq_eq_not, Bool.not_true, Bool.or_eq_false_iff] at hx
    exact hx
  have hid : processLines sys false (splitLines content) = splitLines content := by
    have hh := processLines_nomarker sys (splitLines content) false [] hall
    simpa [processLines] using hh
  rw [hid, joinLines_splitLines]

/-- Witness for C9 at a concrete marker-free content. -/
theorem processTemplateContent_no_markers_id_witness :
    noBlockMarkers "abc\ndef".data = true
    ∧ processTemplateContent "arch".data "abc\ndef".data = "abc\ndef".data :=
  ⟨by decide, processTemplateContent_no_markers_id "arch".data "abc\ndef".data (by decide)⟩

/-- Claim C4: on a text with exactly one open/close marker pair, expansion
keeps every surrounding and body line verbatim and drops the two marker
lines when the condition matches the current system, and drops markers and
body when it does not; the condition matches exactly when it equals the
system tag, except that "linux" also matches the four named distributions. -/
theorem processTemplateContent_single_block (sys cond : List Char)
    (pre body post : List (List Char))
    (hpre : ∀ l ∈ pre, (isOpenLine l = false ∧ isCloseLine l = false) ∧ '\n' ∉ l)
    (hbody : ∀ l ∈ body, (isOpenLine l = false ∧ isCloseLine l = false) ∧ '\n' ∉ l)
    (hpost : ∀ l ∈ post, (isOpenLine l = false ∧ isCloseLine l = false) ∧ '\n' ∉ l)
    (hct : trimSpaceGo cond = cond) (hcn : '\n' ∉ cond) :
    processTemplateContent sys
        (joinLines (pre ++ mkOpenLine cond :: (body ++ closeMarkerLine :: post)))
      = joinLines (pre ++ (if (sys = cond ∨ (cond = "linux".data
            ∧ (sys = "arch".data ∨ sys = "ubuntu".data ∨ sys = "debian".data
              ∨ sys = "fedora".data))) then body else []) ++ post) := by
  have hopen_nn : '\n' ∉ mkOpenLine cond := by
    simp only [mkOpenLine, List.append_assoc, List.mem_append, not_or]
    exact ⟨by decide, hcn, by decide⟩
  have hclose_nn : '\n' ∉ closeMarkerLine := by decide
  have hLnn : ∀ l ∈ pre ++ mkOpenLine cond :: (body ++ closeMarkerLine :: post), '\n' ∉ l := by
    intro l hl
    simp only [List.mem_append, List.mem_cons] at hl
    rcases hl with hl | hl | hl | hl | hl
    · exact (hpre l hl).2
    · exact hl ▸ hopen_nn
    · exact (hbody l hl).2
    · exact hl ▸ hclose_nn
    · exact (hpost l hl).2
  have hLne : pre ++ mkOpenLine cond :: (body ++ closeMarkerLine :: post) ≠ [] := by simp
  rw [processTemplateContent, splitLines_joinLines _ hLne hLnn]
  rw [processLines_nomarker sys pre false _ (fun l hl => (hpre l hl).1)]
  rw [processLines, if_pos (isOpenLine_mkOpenLine cond), condOf_mkOpenLine cond hct]
  rw [processLines_nomarker sys body _ _ (fun l hl => (hbody l hl).1)]
  have hpost_id : processLines sys false post = post := by
    have hh := processLines_nomarker sys post false [] (fun l hl => (hpost l hl).1)
    simpa [processLines] using hh
  have hclose_step : ∀ sk : Bool, processLines sys sk (closeMarkerLine :: post) = post := by
    intro sk
    rw [processLines, if_neg (by simp [isOpenLine_closeMarkerLine]),
      if_pos isCloseLine_closeMarkerLine]
    exact hpost_id
  rw [hclose_step]
  by_cases hm : matchesCondition sys cond = true
  · rw [if_pos ((matchesCondition_iff sys cond).mp hm), hm]
    simp
  · have hmf : matchesCondition sys cond = false := by
      cases hmc : matchesCondition sys cond
      · rfl
      · exact absurd hmc hm
    rw [if_neg (fun hp => hm ((matchesCondition_iff sys cond).mpr hp)), hmf]
    simp

/-- Witness for C4 at concrete inputs: a "linux" block seen on system
"arch" (the permissive-family match keeps the body). -/
theorem processTemplateContent_single_block_witness :
    trimSpaceGo "linux".data = "linux".data
    ∧ '\n' ∉ "linux".data
    ∧ processTemplateContent "arch".data
        (joinLines (["# pre".data]
          ++ mkOpenLine "linux".data :: (["body line".data]
            ++ closeMarkerLine :: ["# post".data])))
      = joinLines (["# pre".data] ++ (if (("arch".data : List Char) = "linux".data
            ∨ ("linux".data = "linux".data
              ∧ (("arch".data : List Char) = "arch".data ∨ ("arch".data : List Char) = "ubuntu".data
                ∨ ("arch".data : List Char) = "debian".data
                ∨ ("arch".data : List Char) = "fedora".data)))
          then ["body line".data] else []) ++ ["# post".data]) :=
  ⟨by decide, by decide,
    processTemplateContent_single_block "arch".data "linux".data
      ["# pre".data] ["body line".data] ["# post".data]
      (by decide) (by decide) (by decide) (by decide) (by decide)⟩


theorem charListLe_total : ∀ a b : List Char, charListLe a b = true ∨ charListLe b a = true := by
  intro a
  induction a with
  | nil => intro b; exact Or.inl rfl
  | cons x as ih =>
    intro b
    cases b with
    | nil => exact Or.inr rfl
    | cons y bs =>
      by_cases h : x = y
      · subst h
        rcases ih bs with h2 | h2
        · exact Or.inl (by simp [charListLe, h2])
        · exact Or.inr (by simp [charListLe, h2])
      · rcases lt_or_gt_of_ne h with hlt | hgt
        · exact Or.inl (by simp [charListLe, h, hlt])
        · refine Or.inr ?_
          have hne : ¬ y = x := fun hh => h hh.symm
          simp [charListLe, hne, hgt]

theorem charListLe_trans : ∀ a b c : List Char,
    charListLe a b = true → charListLe b c = true → charListLe a c = true := by
  intro a
  induction a with
  | nil => intro b c _ _; rfl
  | cons x as ih =>
    intro b c hab hbc
    cases b with
    | nil => exact absurd hab (by simp [charListLe])
    | cons y bs =>
      cases c with
      | nil => exact absurd hbc (by simp [charListLe])
      | cons z cs =>
        by_cases hxy : x = y <;> by_cases hyz : y = z
        · subst hxy; subst hyz
          simp only [charListLe, if_pos rfl] at hab hbc ⊢
          exact ih bs cs hab hbc
        · subst hxy
          simp only [charListLe, if_pos rfl, if_neg hyz] at hbc ⊢
          exact hbc
        · subst hyz
          simp only [charListLe, if_neg hxy] at hab ⊢
          exact hab
        · have hxz : x < z := by
            have h1 : x < y := by
              have := hab
              simp only [charListLe, if_neg hxy, decide_eq_true_eq] at this
              exact this
            have h2 : y < z := by
              have := hbc
              simp only [charListLe, if_neg hyz, decide_eq_true_eq] at this
              exact this
            exact lt_trans h1 h2
          have hne : x ≠ z := ne_of_lt hxz
          simp [charListLe, hne, hxz]

theorem strLeGo_total (a b : String) : strLeGo a b = true ∨ strLeGo b a = true :=
  charListLe_total a.data b.data

theorem strLeGo_trans {a b c : String} (h1 : strLeGo a b = true) (h2 : strLeGo b c = true) :
    strLeGo a c = true :=
  charListLe_trans a.data b.data c.data h1 h2

theorem mem_insertSorted (x y : String) : ∀ l : List String,
    (y ∈ insertSorted x l ↔ y = x ∨ y ∈ l) := by
  intro l
  induction l with
  | nil => simp [insertSorted]
  | cons z zs ih =>
    rw [insertSorted]
    by_cases h : strLeGo x z = true
    · simp [h]
    · simp only [if_neg h, List.mem_cons, ih]
      tauto

theorem pairwise_insertSorted (x : String) : ∀ l : List String,
    List.Pairwise (fun a b => strLeGo a b = true) l →
    List.Pairwise (fun a b => strLeGo a b = true) (insertSorted x l) := by
  intro l
  induction l with
  | nil => intro _; simp [insertSorted]
  | cons z zs ih =>
    intro hp
    rw [insertSorted]
    rcases List.pairwise_cons.mp hp with ⟨hz, hzs⟩
    by_cases h : strLeGo x z = true
    · rw [if_pos h]
      refine List.pairwise_cons.mpr ⟨?_, hp⟩
      intro b hb
      rcases List.mem_cons.mp hb with rfl | hb2
      · exact h
      · exact strLeGo_trans h (hz b hb2)
    · rw [if_neg h]
      refine List.pairwise_cons.mpr ⟨?_, ih hzs⟩
      intro b hb
      rcases (mem_insertSorted x b zs).mp hb with rfl | hb2
      · rcases strLeGo_total z b with h2 | h2
        · exact h2
        · exact absurd h2 h
      · exact hz b hb2

theorem sortStrings_pairwise : ∀ l : List String,
    List.Pairwise (fun a b => strLeGo a b = true) (sortStrings l) := by
  intro l
  induction l with
  | nil => simp [sortStrings]
  | cons x xs ih => exact pairwise_insertSorted x (sortStrings xs) ih

theorem mem_sortStrings (y : String) : ∀ l : List String, (y ∈ sortStrings l ↔ y ∈ l) := by
  intro l
  induction l with
  | nil => simp [sortStrings]
  | cons x xs ih =>
    rw [sortStrings, mem_insertSorted]
    simp [ih]

theorem mem_scanCollect (name : String) : ∀ entries : List (String × Bool),
    (name ∈ scanCollect entries ↔ ((name, true) ∈ entries ∧ skipScanEntry name = false)) := by
  intro entries
  induction entries with
  | nil => simp [scanCollect]
  | cons e rest ih =>
    obtain ⟨n, d⟩ := e
    rw [scanCollect]
    by_cases hs : skipScanEntry n = true
    · rw [if_pos hs, ih]
      simp only [List.mem_cons, Prod.mk.injEq]
      constructor
      · rintro ⟨h1, h2⟩
        exact ⟨Or.inr h1, h2⟩
      · rintro ⟨h1 | h1, h2⟩
        · rcases h1 with ⟨rfl, _⟩
          exact absurd hs (by simp [h2])
        · exact ⟨h1, h2⟩
    · rw [if_neg hs]
      cases d with
      | true =>
        rw [if_pos rfl]
        simp only [List.mem_cons, ih, Prod.mk.injEq]
        constructor
        · rintro (rfl | ⟨h1, h2⟩)
          · exact ⟨Or.inl ⟨rfl, trivial⟩, by simpa using hs⟩
          · exact ⟨Or.inr h1, h2⟩
        · rintro ⟨h1 | h1, h2⟩
          · rcases h1 with ⟨rfl, _⟩
            exact Or.inl rfl
          · exact Or.inr ⟨h1, h2⟩
      | false =>
        rw [if_neg (by simp), ih]
        simp only [List.mem_cons, Prod.mk.injEq]
        constructor
        · rintro ⟨h1, h2⟩
          exact ⟨Or.inr h1, h2⟩
        · rintro ⟨h1 | h1, h2⟩
          · exact absurd h1.2 (by simp)
          · exact ⟨h1, h2⟩

/-- Claim C10: scanning an existing dotfiles root returns, in lexicographic
order, exactly the names of its direct subdirectories not on the fixed
skip-list; non-directories are ignored; a non-existent root yields the
empty list; and the concrete scenario with vim/, tmux/, .git/ and the
config file yields exactly ["tmux", "vim"]. -/
theorem scanPackages_spec :
    (∀ entries, List.Pairwise (fun a b => strLeGo a b = true) (scanPackages true entries))
    ∧ (∀ entries name, name ∈ scanPackages true entries
        ↔ ((name, true) ∈ entries ∧ skipScanEntry name = false))
    ∧ (∀ entries, scanPackages false entries = [])
    ∧ scanPackages true [("vim", true), ("tmux", true), (".git", true), ("dotctl.json", false)]
      = ["tmux", "vim"] := by
  refine ⟨?_, ?_, ?_, ?_⟩
  · intro entries
    rw [scanPackages]
    simp only [Bool.not_true, Bool.false_eq_true, if_false]
    exact sortStrings_pairwise _
  · intro entries name
    rw [scanPackages]
    simp only [Bool.not_true, Bool.false_eq_true, if_false]
    rw [mem_sortStrings, mem_scanCollect]
  · intro entries
    rfl
  · decide

/-- Claim C3 fails on the code (code bug): for a shell package containing
the single template file "gitconfig.template" (and a subdirectory
"themes"), deploy writes the expanded file to the home-directory name
"gitconfig" and skips the subdirectory, while undeploy removes the verbatim
entry names "gitconfig.template" and "themes" — so undeploy does not remove
the destination that deploy created. -/
theorem undeployShell_template_mismatch :
    deployShellTargets [("gitconfig.template", false), ("themes", true)] = ["gitconfig"]
    ∧ undeployShellTargets [("gitconfig.template", false), ("themes", true)]
        = ["gitconfig.template", "themes"]
    ∧ deployShellTargets [("gitconfig.template", false), ("themes", true)]
        ≠ undeployShellTargets [("gitconfig.template", false), ("themes", true)] := by
  refine ⟨by decide, rfl, by decide⟩

/-- Counterexample to claim C6 as stated: a successfully parsed document
with a present-but-empty exclusion list keeps the empty list (only nil
subfields are backfilled), so the returned exclusion list is NOT
non-empty. -/
theorem loadConfig_empty_excludes_cex :
    (loadConfig "/home/u" (.yamlParsed
        { packages := none, globalExcludes := some [], stowOptions := none,
          github := none })).fst.globalExcludes = some [] := rfl

/-- Claim C6 amended: configuration load never fails: an absent file
returns the built-in default (empty package map, fixed exclusion list, no
remote descriptor) without any side effect; an unreadable or unparsable
file logs and returns the default; after a successful parse the nil
subfields are backfilled, so the package map is non-null and the exclusion
list is the non-empty default whenever it was missing (while a
present-but-empty list is kept as parsed). -/
theorem loadConfig_lenient_amended (homeDir : String) (c : GoConfig)
    (hex : c.globalExcludes = none) :
    loadConfig homeDir .absent = (defaultConfigDoc, [])
    ∧ defaultConfigDoc.packages = some []
    ∧ defaultConfigDoc.globalExcludes = some defaultExcludesList
    ∧ defaultConfigDoc.github = none
    ∧ loadConfig homeDir .unreadable = (defaultConfigDoc, [.logReadWarning])
    ∧ loadConfig homeDir .yamlParseError = (defaultConfigDoc, [.logParseError])
    ∧ loadConfig homeDir .jsonParseError = (defaultConfigDoc, [.logParseError])
    ∧ (loadConfig homeDir (.yamlParsed c)).fst.packages = some (c.packages.getD [])
    ∧ (loadConfig homeDir (.yamlParsed c)).fst.globalExcludes = some defaultExcludesList
    ∧ defaultExcludesList ≠ [] := by
  refine ⟨rfl, rfl, rfl, rfl, rfl, rfl, rfl, rfl, ?_, by decide⟩
  simp [loadConfig, mergeWithDefaults, hex]

/-- Witness for the amended C6 at a concrete parsed document with every
subfield missing. -/
theorem loadConfig_lenient_amended_witness :
    loadConfig "/home/u" .absent = (defaultConfigDoc, [])
    ∧ defaultConfigDoc.packages = some []
    ∧ defaultConfigDoc.globalExcludes = some defaultExcludesList
    ∧ defaultConfigDoc.github = none
    ∧ loadConfig "/home/u" .unreadable = (defaultConfigDoc, [.logReadWarning])
    ∧ loadConfig "/home/u" .yamlParseError = (defaultConfigDoc, [.logParseError])
    ∧ loadConfig "/home/u" .jsonParseError = (defaultConfigDoc, [.logParseError])
    ∧ (loadConfig "/home/u" (.yamlParsed ⟨none, none, none, none⟩)).fst.packages = some []
    ∧ (loadConfig "/home/u" (.yamlParsed ⟨none, none, none, none⟩)).fst.globalExcludes
        = some defaultExcludesList
    ∧ defaultExcludesList ≠ [] :=
  loadConfig_lenient_amended "/home/u" ⟨none, none, none, none⟩ rfl

/-- Claim C7: when the local HEAD hash equals the remote tracking branch
hash and the working tree is clean (no staged, unstaged or untracked
changes, so the add command stages nothing), sync terminates successfully
with the nothing-to-sync outcome, issuing only the fetch and add commands
and never a stash, pull, commit or push. -/
theorem syncToGitHub_nothing_to_sync (env : GitEnv)
    (h1 : env.repoConfigured = true) (h2 : env.ghAvailable = true)
    (h3 : env.ghAuthenticated = true) (h4 : env.gitDirExists = true)
    (h5 : env.fetchOk = true) (h6 : env.stagedChanges = false)
    (h7 : env.unstagedChanges = false) (h8 : env.untrackedFiles = false)
    (h9 : env.localHash = env.upstreamHash) (h10 : env.addOk = true)
    (h11 : env.stagedAfterAdd = false) :
    syncToGitHub env false = ([.fetch, .addAll], .nothingToSync)
    ∧ GitCmd.stashPush ∉ (syncToGitHub env false).1
    ∧ GitCmd.pull ∉ (syncToGitHub env false).1
    ∧ GitCmd.commit ∉ (syncToGitHub env false).1
    ∧ GitCmd.push ∉ (syncToGitHub env false).1 := by
  have hmain : syncToGitHub env false = ([.fetch, .addAll], .nothingToSync) := by
    simp [syncToGitHub, hasLocalChanges, isBehindUpstream, h1, h2, h3, h4, h5, h6,
      h7, h8, h9, h10, h11]
  refine ⟨hmain, ?_, ?_, ?_, ?_⟩ <;> rw [hmain] <;> simp

/-- Witness for C7 at a concrete environment with equal hashes and a clean
tree. -/
theorem syncToGitHub_nothing_to_sync_witness :
    syncToGitHub
      { repoConfigured := true, ghAvailable := true, ghAuthenticated := true,
        gitDirExists := true, initOk := true, remoteAddOk := true, fetchOk := true,
        stagedChanges := false, unstagedChanges := false, untrackedFiles := false,
        localHash := "abc123", upstreamHash := "abc123", stashPushOk := true,
        pullOk := true, stashPopOk := true, mergeConflicts := false, addOk := true,
        stagedAfterAdd := false, commitOk := true, pushOk := true } false
      = ([.fetch, .addAll], .nothingToSync) :=
  (syncToGitHub_nothing_to_sync _ rfl rfl rfl rfl rfl rfl rfl rfl rfl rfl rfl).1

/-- Claim C8: when the move into the dotfiles root succeeds but the
symlink creation fails, adoption attempts the compensating move back,
returns the symlink error, and leaves the package map unchanged (no
registration). -/
theorem adoptSinglePackage_rollback (env : AdoptEnv) (packageName : String)
    (systems : List String) (packages : List (String × JValue))
    (hr : env.renameOk = true) (hs : env.symlinkOk = false) :
    adoptSinglePackage env packageName systems packages
      = ([.moveToDotfiles, .symlinkBack, .moveBack],
          .error "failed to create symlink", packages)
    ∧ AdoptStep.moveBack ∈ (adoptSinglePackage env packageName systems packages).1
    ∧ (adoptSinglePackage env packageName systems packages).2.2 = packages := by
  have hmain : adoptSinglePackage env packageName systems packages
      = ([.moveToDotfiles, .symlinkBack, .moveBack],
          .error "failed to create symlink", packages) := by
    simp [adoptSinglePackage, hr, hs]
  refine ⟨hmain, by rw [hmain]; simp, by rw [hmain]⟩

/-- Witness for C8 at a concrete adoption whose symlink step fails. -/
theorem adoptSinglePackage_rollback_witness :
    adoptSinglePackage ⟨true, false⟩ "foo" ["arch"] []
      = ([.moveToDotfiles, .symlinkBack, .moveBack],
          .error "failed to create symlink", []) :=
  (adoptSinglePackage_rollback ⟨true, false⟩ "foo" ["arch"] [] rfl rfl).1

end Dotctl
